import Mathlib

/-!
Verification of the TCG-Forensics pixel-analysis and scoring engine.

The definitions below are a shallow embedding of the computer-vision code in
`server.js` and its later iterations; the latest iteration (the Firecrawl
server, version 3.0.0) is taken as the canonical implementation of every
algorithm, as the design notes direct.  JavaScript IEEE-754 arithmetic is
modelled by exact rationals (`ℚ`) where the code only adds, multiplies and
divides, and by real numbers (`ℝ`) where the code calls `Math.sqrt`,
`Math.log2` or `Math.atan2`.  Typed-array indices and counts are `ℕ`;
signed pixel differences are `ℤ`.
-/

namespace TCGForensics

/-- Decoded RGBA pixel buffer as produced by the image-codec layer:
interleaved R,G,B,A bytes in scan order. -/
structure PixelBuffer where
  width : ℕ
  height : ℕ
  data : List ℕ
deriving DecidableEq

/-- A valid buffer: positive dimensions, `width*height*4` interleaved bytes,
every byte in 0..255. -/
def PixelBuffer.valid (p : PixelBuffer) : Prop :=
  1 ≤ p.width ∧ 1 ≤ p.height ∧ p.data.length = p.width * p.height * 4 ∧
    ∀ b ∈ p.data, b ≤ 255

instance (p : PixelBuffer) : Decidable p.valid := by
  unfold PixelBuffer.valid; infer_instance

/-- Write clamping of `Uint8ClampedArray`: values are clamped into 0..255. -/
def clamp255 (z : ℤ) : ℕ := (min 255 (max 0 z)).toNat

/-- Typed-array read `d[i]` (reads used by the engine are in bounds for
valid buffers; the default matches a zero-initialised array). -/
def byteAt (d : List ℕ) (i : ℕ) : ℕ := d.getD i 0

/-- `rgbToGrayscale`: `gray[i] = Math.round(0.299*r + 0.587*g + 0.114*b)`
with `r = data[i*4]`, `g = data[i*4+1]`, `b = data[i*4+2]`, the result stored
in a `Uint8ClampedArray`.  `Math.round` rounds half-up, which is Mathlib's
`round`. -/
def grayAt (d : List ℕ) (i : ℕ) : ℕ :=
  clamp255 (round ((299 / 1000 : ℚ) * byteAt d (i * 4) +
    (587 / 1000 : ℚ) * byteAt d (i * 4 + 1) +
    (114 / 1000 : ℚ) * byteAt d (i * 4 + 2)))

/-- Two-dimensional view of the luminance buffer: `gray[y * width + x]`. -/
def PixelBuffer.gray (p : PixelBuffer) (x y : ℕ) : ℕ :=
  grayAt p.data (y * p.width + x)

/-- The interior pixels visited by the detector loops
`for (y = 1; y < height-1; y++) for (x = 1; x < width-1; x++)`,
as (x, y) pairs. -/
def interior (w h : ℕ) : Finset (ℕ × ℕ) :=
  Finset.Ico 1 (w - 1) ×ˢ Finset.Ico 1 (h - 1)

/-- The interior pixels visited by the Harris loops
`for (y = 2; y < height-2; y++) for (x = 2; x < width-2; x++)`. -/
def interior2 (w h : ℕ) : Finset (ℕ × ℕ) :=
  Finset.Ico 2 (w - 2) ×ˢ Finset.Ico 2 (h - 2)

/-- Generic 3x3 convolution at an interior pixel, mirroring the kernel loops
`for (ky = -1; ky <= 1; ky++) for (kx = -1; kx <= 1; kx++)` with
`ki = (ky+1)*3 + (kx+1)`; here `ky kx` range over 0,1,2 so the tap offset is
`+ k - 1` (the loops only run at `x, y ≥ 1`). -/
def conv3 (k : List ℤ) (p : PixelBuffer) (x y : ℕ) : ℤ :=
  ∑ ky ∈ Finset.range 3, ∑ kx ∈ Finset.range 3,
    (p.gray (x + kx - 1) (y + ky - 1) : ℤ) * k.getD (ky * 3 + kx) 0

def sobelXKernel : List ℤ := [-1, 0, 1, -2, 0, 2, -1, 0, 1]

def sobelYKernel : List ℤ := [-1, -2, -1, 0, 0, 0, 1, 2, 1]

/-- Sobel gradient magnitude `Math.sqrt(gx*gx + gy*gy)` used by
`cannyEdgeDetection`. -/
noncomputable def cannyGradient (p : PixelBuffer) (x y : ℕ) : ℝ :=
  Real.sqrt ((conv3 sobelXKernel p x y : ℝ) ^ 2 + (conv3 sobelYKernel p x y : ℝ) ^ 2)

open Classical in
/-- Edge-pixel count of `cannyEdgeDetection`: pixels whose gradient magnitude
reaches the high threshold 150.  The source counts over the whole
zero-initialised gradient array; entries outside the interior stay 0 < 150,
so only interior pixels can be counted. -/
noncomputable def cannyEdgePixels (p : PixelBuffer) : ℕ :=
  ((interior p.width p.height).filter fun q =>
    (150 : ℝ) ≤ cannyGradient p q.1 q.2).card

/-- `edgeDensity = (edgePixels / (width * height)) * 100`. -/
noncomputable def cannyEdgeDensity (p : PixelBuffer) : ℝ :=
  ((cannyEdgePixels p : ℝ) / (p.width * p.height)) * 100

/-- `score = Math.min(10, (edgeDensity / 10) * 10)`. -/
noncomputable def cannyScore (p : PixelBuffer) : ℝ :=
  min 10 (cannyEdgeDensity p / 10 * 10)

/-- Harris horizontal gradient `Ix = (gray[y*w+(x+1)] - gray[y*w+(x-1)]) / 2`. -/
def harrisIx (p : PixelBuffer) (x y : ℕ) : ℚ :=
  ((p.gray (x + 1) y : ℚ) - (p.gray (x - 1) y : ℚ)) / 2

/-- Harris vertical gradient `Iy = (gray[(y+1)*w+x] - gray[(y-1)*w+x]) / 2`. -/
def harrisIy (p : PixelBuffer) (x y : ℕ) : ℚ :=
  ((p.gray x (y + 1) : ℚ) - (p.gray x (y - 1) : ℚ)) / 2

/-- Harris response `det - 0.04 * trace^2` where `Ixx = Ix*Ix`, `Iyy = Iy*Iy`,
`Ixy = Ix*Iy`, `det = Ixx*Iyy - Ixy*Ixy`, `trace = Ixx + Iyy`. -/
def harrisResponse (p : PixelBuffer) (x y : ℕ) : ℚ :=
  let Ix := harrisIx p x y
  let Iy := harrisIy p x y
  let Ixx := Ix * Ix
  let Iyy := Iy * Iy
  let Ixy := Ix * Iy
  (Ixx * Iyy - Ixy * Ixy) - (4 / 100) * (Ixx + Iyy) * (Ixx + Iyy)

/-- Corner count of `harrisCornerDetection`: interior pixels with
`response > threshold` where `threshold = 10000`. -/
def harrisCorners (p : PixelBuffer) : ℕ :=
  ((interior2 p.width p.height).filter fun q =>
    (10000 : ℚ) < harrisResponse p q.1 q.2).card

/-- `cornerDensity = (corners / (width * height)) * 10000`. -/
def harrisCornerDensity (p : PixelBuffer) : ℚ :=
  ((harrisCorners p : ℚ) / (p.width * p.height)) * 10000

/-- `score = Math.min(10, cornerDensity)`. -/
def harrisScore (p : PixelBuffer) : ℚ :=
  min 10 (harrisCornerDensity p)

/-- Central-difference horizontal gradient (no halving), shared by
`houghLineTransform` and `histogramOfGradients`:
`gx = gray[y*w+(x+1)] - gray[y*w+(x-1)]`. -/
def centralGx (p : PixelBuffer) (x y : ℕ) : ℤ :=
  (p.gray (x + 1) y : ℤ) - (p.gray (x - 1) y : ℤ)

/-- Central-difference vertical gradient
`gy = gray[(y+1)*w+x] - gray[(y-1)*w+x]`. -/
def centralGy (p : PixelBuffer) (x y : ℕ) : ℤ :=
  (p.gray x (y + 1) : ℤ) - (p.gray x (y - 1) : ℤ)

/-- `magnitude = Math.sqrt(gx*gx + gy*gy)` over the central differences. -/
noncomputable def centralMagnitude (p : PixelBuffer) (x y : ℕ) : ℝ :=
  Real.sqrt ((centralGx p x y : ℝ) ^ 2 + (centralGy p x y : ℝ) ^ 2)

open Classical in
/-- Edge count of `houghLineTransform`: interior pixels with
`magnitude > 50`. -/
noncomputable def houghEdgeCount (p : PixelBuffer) : ℕ :=
  ((interior p.width p.height).filter fun q =>
    (50 : ℝ) < centralMagnitude p q.1 q.2).card

/-- `lines = Math.floor(edgeCount / 100)` (integer division). -/
noncomputable def houghLines (p : PixelBuffer) : ℕ :=
  houghEdgeCount p / 100

/-- `score = Math.min(10, (lines / 10) * 10)`. -/
noncomputable def houghScore (p : PixelBuffer) : ℝ :=
  min 10 ((houghLines p : ℝ) / 10 * 10)

/-- `Math.atan2(y, x)`, with values in (-pi, pi] and `atan2 0 0 = 0`, i.e. the
argument of the complex number `x + y*i`. -/
noncomputable def atan2 (y x : ℝ) : ℝ :=
  Complex.arg ⟨x, y⟩

/-- Orientation bin of `histogramOfGradients`:
`binIdx = Math.floor(((angle + pi) / (2*pi)) * bins) % bins` with `bins = 9`. -/
noncomputable def hogBinIdx (p : PixelBuffer) (x y : ℕ) : ℕ :=
  (Int.toNat ⌊(atan2 (centralGy p x y) (centralGx p x y) + Real.pi) /
    (2 * Real.pi) * 9⌋) % 9

open Classical in
/-- Accumulated gradient magnitude in orientation bin `b`:
`histogram[binIdx] += magnitude` over the interior loops. -/
noncomputable def hogBin (p : PixelBuffer) (b : ℕ) : ℝ :=
  ∑ q ∈ (interior p.width p.height).filter fun q => hogBinIdx p q.1 q.2 = b,
    centralMagnitude p q.1 q.2

/-- `maxBin = Math.max(...histogram)` over the 9 bins. -/
noncomputable def hogMaxBin (p : PixelBuffer) : ℝ :=
  (Finset.range 9).sup' ⟨0, by simp⟩ (hogBin p)

/-- `minBin = Math.min(...histogram)` over the 9 bins. -/
noncomputable def hogMinBin (p : PixelBuffer) : ℝ :=
  (Finset.range 9).inf' ⟨0, by simp⟩ (hogBin p)

/-- `variance = maxBin - minBin`. -/
noncomputable def hogVariance (p : PixelBuffer) : ℝ :=
  hogMaxBin p - hogMinBin p

/-- `score = Math.min(10, (variance / 10000) * 10)`. -/
noncomputable def hogScore (p : PixelBuffer) : ℝ :=
  min 10 (hogVariance p / 10000 * 10)

/-- The 8 neighbours of an interior pixel in the order used by
`localBinaryPatterns` (clockwise from top-left). -/
def lbpNeighbors (p : PixelBuffer) (x y : ℕ) : List ℕ :=
  [p.gray (x - 1) (y - 1), p.gray x (y - 1), p.gray (x + 1) (y - 1),
   p.gray (x + 1) y, p.gray (x + 1) (y + 1), p.gray x (y + 1),
   p.gray (x - 1) (y + 1), p.gray (x - 1) y]

/-- Bit `i` of the LBP pattern: set when `neighbors[i] >= center`. -/
def lbpBit (p : PixelBuffer) (x y i : ℕ) : ℕ :=
  if p.gray x y ≤ (lbpNeighbors p x y).getD i 0 then 1 else 0

/-- Number of bit transitions around the circular 8-bit pattern:
compares bit `i` with bit `(i+1) % 8` for `i = 0..7`. -/
def lbpTransitions (p : PixelBuffer) (x y : ℕ) : ℕ :=
  ∑ i ∈ Finset.range 8,
    if lbpBit p x y i ≠ lbpBit p x y ((i + 1) % 8) then 1 else 0

/-- `uniformPatterns`: interior pixels whose pattern has at most 2
transitions. -/
def lbpUniformPatterns (p : PixelBuffer) : ℕ :=
  ((interior p.width p.height).filter fun q =>
    lbpTransitions p q.1 q.2 ≤ 2).card

/-- `totalPatterns`: every interior pixel contributes one pattern. -/
def lbpTotalPatterns (p : PixelBuffer) : ℕ :=
  (interior p.width p.height).card

/-- `uniformity = totalPatterns > 0 ? (uniformPatterns / totalPatterns) * 100 : 0`. -/
def lbpUniformity (p : PixelBuffer) : ℚ :=
  if 0 < lbpTotalPatterns p then
    ((lbpUniformPatterns p : ℚ) / (lbpTotalPatterns p : ℚ)) * 100
  else 0

/-- `score = uniformity / 10`. -/
def lbpScore (p : PixelBuffer) : ℚ :=
  lbpUniformity p / 10

/-- 256-bin luminance histogram of `entropyAnalysis`:
`histogram[gray[i]]++` over all `width*height` luminance bytes. -/
def entropyHistogram (p : PixelBuffer) (v : ℕ) : ℕ :=
  ((Finset.range (p.width * p.height)).filter fun i =>
    grayAt p.data i = v).card

open Classical in
/-- Shannon entropy `H = -sum p_i * log2 p_i` over the nonzero bins, with
`p_i = histogram[i] / total` and `total = width*height`. -/
noncomputable def entropyValue (p : PixelBuffer) : ℝ :=
  ∑ v ∈ (Finset.range 256).filter fun v => 0 < entropyHistogram p v,
    -((entropyHistogram p v : ℝ) / (p.width * p.height) *
      Real.logb 2 ((entropyHistogram p v : ℝ) / (p.width * p.height)))

/-- `score = (entropy / 8) * 10`. -/
noncomputable def entropyScore (p : PixelBuffer) : ℝ :=
  entropyValue p / 8 * 10

/-- Laplacian kernel `[0, -1, 0, -1, 4, -1, 0, -1, 0]` of
`laplacianSharpness`. -/
def laplacianKernel : List ℤ := [0, -1, 0, -1, 4, -1, 0, -1, 0]

/-- Laplacian response at an interior pixel. -/
def lapResponse (p : PixelBuffer) (x y : ℕ) : ℤ :=
  conv3 laplacianKernel p x y

/-- Accumulated `variance += sum*sum` of `laplacianSharpness` before the
final division. -/
def lapSumSq (p : PixelBuffer) : ℤ :=
  ∑ q ∈ interior p.width p.height, lapResponse p q.1 q.2 ^ 2

/-- `variance = count > 0 ? variance / count : 0` where `count` is the number
of interior pixels: the mean sum-of-squares of the Laplacian response. -/
def lapVariance (p : PixelBuffer) : ℚ :=
  if 0 < (interior p.width p.height).card then
    (lapSumSq p : ℚ) / ((interior p.width p.height).card : ℚ)
  else 0

/-- `score = Math.min(10, (variance / 1000) * 10)`. -/
def lapScore (p : PixelBuffer) : ℚ :=
  min 10 (lapVariance p / 1000 * 10)

/-- The sampling loop `for (v = 0; v < limit; v += stp)` of `labColorDeltaE`,
recorded as the list of visited indices.  The body runs only while
`v < limit`; the positivity conjunct in the guard is exactly the condition
under which the source's loop terminates, and the stride the source passes
is always positive. -/
def gridPoints (stp limit v : ℕ) : List ℕ :=
  if _h : v < limit ∧ 0 < stp then v :: gridPoints stp limit (v + stp) else []
termination_by limit - v
decreasing_by omega

/-- Sampling stride of `labColorDeltaE`:
`step = Math.max(1, Math.floor(Math.sqrt(width * height) / 100))`. -/
noncomputable def sampleStep (p : PixelBuffer) : ℕ :=
  max 1 (Int.toNat ⌊Real.sqrt ((p.width * p.height : ℕ) : ℝ) / 100⌋)

theorem sampleStep_pos (p : PixelBuffer) : 0 < sampleStep p :=
  lt_of_lt_of_le one_pos (le_max_left 1 _)

/-- The RGB samples pushed by the two sampling loops, in scan order. -/
noncomputable def labSamples (p : PixelBuffer) : List (ℕ × ℕ × ℕ) :=
  (gridPoints (sampleStep p) p.height 0).flatMap fun y =>
    (gridPoints (sampleStep p) p.width 0).map fun x =>
      (byteAt p.data ((y * p.width + x) * 4),
       byteAt p.data ((y * p.width + x) * 4 + 1),
       byteAt p.data ((y * p.width + x) * 4 + 2))

/-- `totalDelta += Math.sqrt(dr*dr + dg*dg + db*db)` over consecutive samples
`i = 1 .. samples.length - 1`. -/
noncomputable def labTotalDelta (p : PixelBuffer) : ℝ :=
  (((labSamples p).zip (labSamples p).tail).map fun pr =>
    Real.sqrt (((pr.2.1 : ℝ) - (pr.1.1 : ℝ)) ^ 2 +
      ((pr.2.2.1 : ℝ) - (pr.1.2.1 : ℝ)) ^ 2 +
      ((pr.2.2.2 : ℝ) - (pr.1.2.2 : ℝ)) ^ 2)).sum

/-- `avgDelta = samples.length > 1 ? totalDelta / (samples.length - 1) : 0`. -/
noncomputable def labAvgDelta (p : PixelBuffer) : ℝ :=
  if 1 < (labSamples p).length then
    labTotalDelta p / (((labSamples p).length - 1 : ℕ) : ℝ)
  else 0

/-- `score = Math.max(0, 10 - (avgDelta / 50))`. -/
noncomputable def labScore (p : PixelBuffer) : ℝ :=
  max 0 (10 - labAvgDelta p / 50)

/-- Per-result record of the analysis battery.  The source additionally
carries per-algorithm raw metrics and a description string; the shared
fields every claim speaks about are the name and the numeric score (the
JSON layer renders the score with `toFixed(1)`). -/
structure AlgorithmResult where
  name : String
  score : ℝ

/-- The /api/cv handler: the fixed battery of 8 algorithms, pushed in source
order for every tier. -/
noncomputable def analyze (p : PixelBuffer) : List AlgorithmResult :=
  [⟨"Canny Edge Detection", cannyScore p⟩,
   ⟨"LAB Color Delta-E", labScore p⟩,
   ⟨"Local Binary Patterns", (lbpScore p : ℝ)⟩,
   ⟨"Histogram of Gradients", hogScore p⟩,
   ⟨"Entropy Analysis", entropyScore p⟩,
   ⟨"Laplacian Sharpness", (lapScore p : ℝ)⟩,
   ⟨"Harris Corner Detection", (harrisScore p : ℝ)⟩,
   ⟨"Hough Line Transform", houghScore p⟩]

/-- Process-wide mutable server state: the PSA reference-data cache.
None of the 8 algorithm functions nor the /api/cv handler reads or writes
`PSA_CACHE`, so the analysis leaves it untouched. -/
structure ServerState where
  psaCache : List (String × String)
deriving DecidableEq

/-- One /api/cv invocation at the buffer level: produces the 8 results and
the (unchanged) server state. -/
noncomputable def analyzeRun (s : ServerState) (p : PixelBuffer) :
    List AlgorithmResult × ServerState :=
  (analyze p, s)

/-- Colour-bin index of pixel `i`:
`Math.floor(r/32)*64 + Math.floor(g/32)*8 + Math.floor(b/32)`. -/
def colorBinIdx (d : List ℕ) (i : ℕ) : ℕ :=
  byteAt d (i * 4) / 32 * 64 + byteAt d (i * 4 + 1) / 32 * 8 +
    byteAt d (i * 4 + 2) / 32

/-- Raw 512-bin colour histogram of `calculateHistogramCorrelation` before
normalisation: bin `j` counts the pixels `i < pixelCount` with
`colorBinIdx i = j`. -/
def colorHist (d : List ℕ) (T j : ℕ) : ℕ :=
  ((Finset.range T).filter fun i => colorBinIdx d i = j).card

/-- Normalised histogram entry `hist[j] / pixelCount`. -/
def colorHistNorm (d : List ℕ) (T j : ℕ) : ℚ :=
  (colorHist d T j : ℚ) / (T : ℚ)

/-- `mean = hist.reduce((a, b) => a + b, 0) / hist.length` with 512 bins. -/
def colorHistMean (d : List ℕ) (T : ℕ) : ℚ :=
  (∑ j ∈ Finset.range 512, colorHistNorm d T j) / 512

/-- Centered deviation `hist[j] - mean` of the normalised histogram. -/
def colorHistDev (d : List ℕ) (T j : ℕ) : ℚ :=
  colorHistNorm d T j - colorHistMean d T

/-- `sum12 += d1 * d2` over the 512 bins. -/
def colorCorrNum (d1 d2 : List ℕ) (T : ℕ) : ℚ :=
  ∑ j ∈ Finset.range 512, colorHistDev d1 T j * colorHistDev d2 T j

/-- `sqSum += d * d` over the 512 bins. -/
def colorSqSum (d : List ℕ) (T : ℕ) : ℚ :=
  ∑ j ∈ Finset.range 512, colorHistDev d T j ^ 2

/-- `calculateHistogramCorrelation(imgData1, imgData2, width, height)`:
Pearson correlation of the two normalised histograms,
`sum12 / (Math.sqrt(sqSum1) * Math.sqrt(sqSum2) || 1)` — the JS `|| 1`
guard replaces a zero denominator by 1 — clamped into [0, 1]. -/
noncomputable def histCorrelation (d1 d2 : List ℕ) (w h : ℕ) : ℝ :=
  max 0 (min 1 (((colorCorrNum d1 d2 (w * h) : ℚ) : ℝ) /
    (if Real.sqrt ((colorSqSum d1 (w * h) : ℚ) : ℝ) *
        Real.sqrt ((colorSqSum d2 (w * h) : ℚ) : ℝ) = 0 then 1
     else Real.sqrt ((colorSqSum d1 (w * h) : ℚ) : ℝ) *
        Real.sqrt ((colorSqSum d2 (w * h) : ℚ) : ℝ))))

/-- `mean = (sum of gray values) / n` used by `calculateSSIM`. -/
def grayMean (d : List ℕ) (n : ℕ) : ℚ :=
  (∑ i ∈ Finset.range n, (grayAt d i : ℚ)) / n

/-- `var = (sum of squared deviations) / n` used by `calculateSSIM`. -/
def grayVar (d : List ℕ) (n : ℕ) : ℚ :=
  (∑ i ∈ Finset.range n, ((grayAt d i : ℚ) - grayMean d n) ^ 2) / n

/-- `covar = (sum of products of deviations) / n` used by `calculateSSIM`. -/
def grayCovar (d1 d2 : List ℕ) (n : ℕ) : ℚ :=
  (∑ i ∈ Finset.range n,
    ((grayAt d1 i : ℚ) - grayMean d1 n) * ((grayAt d2 i : ℚ) - grayMean d2 n)) / n

/-- `calculateSSIM(imgData1, imgData2, width, height)`: single-window SSIM
over the whole image, `((2*mean1*mean2 + C1) * (2*covar + C2)) /
((mean1^2 + mean2^2 + C1) * (var1 + var2 + C2))` with `C1 = 6.5025`,
`C2 = 58.5225`, clamped into [0, 1]. -/
def calcSSIM (d1 d2 : List ℕ) (w h : ℕ) : ℚ :=
  max 0 (min 1 (((2 * grayMean d1 (w * h) * grayMean d2 (w * h) + 65025 / 10000) *
      (2 * grayCovar d1 d2 (w * h) + 585225 / 10000)) /
    ((grayMean d1 (w * h) * grayMean d1 (w * h) +
        grayMean d2 (w * h) * grayMean d2 (w * h) + 65025 / 10000) *
      (grayVar d1 (w * h) + grayVar d2 (w * h) + 585225 / 10000))))

/-- Negated Laplacian kernel `[0, 1, 0, 1, -4, 1, 0, 1, 0]` used by the
comparator's `calculateSharpness`. -/
def sharpKernel : List ℤ := [0, 1, 0, 1, -4, 1, 0, 1, 0]

/-- Running sum `sum += laplacian` of `calculateSharpness`. -/
def calcSharpSum (d : List ℕ) (w h : ℕ) : ℤ :=
  ∑ q ∈ interior w h, conv3 sharpKernel ⟨w, h, d⟩ q.1 q.2

/-- Running sum `sumSq += laplacian * laplacian` of `calculateSharpness`. -/
def calcSharpSumSq (d : List ℕ) (w h : ℕ) : ℤ :=
  ∑ q ∈ interior w h, conv3 sharpKernel ⟨w, h, d⟩ q.1 q.2 ^ 2

/-- `calculateSharpness(imgData, width, height)`:
`mean = sum / count; variance = sumSq / count - mean * mean;
return Math.abs(variance)` with `count` the number of interior pixels. -/
def calcSharpness (d : List ℕ) (w h : ℕ) : ℚ :=
  let count : ℚ := ((interior w h).card : ℚ)
  let mean : ℚ := (calcSharpSum d w h : ℚ) / count
  |(calcSharpSumSq d w h : ℚ) / count - mean * mean|

/-- `sharpnessDiff = Math.abs(userSharpness - refSharpness)` where each side
is `calculateSharpness` of the corresponding buffer at its own
dimensions. -/
def sharpnessDifference (u r : PixelBuffer) : ℚ :=
  |calcSharpness u.data u.width u.height - calcSharpness r.data r.width r.height|

/-- The warnings the aggregator can emit (the source renders each as a
template string carrying the offending percentage or difference). -/
inductive Warning where
  | lowColorCorrelation
  | lowStructuralSimilarity
  | significantSharpnessDifference
  | noReferenceImages
deriving DecidableEq

/-- Three-way authenticity verdict. -/
inductive Verdict where
  | LIKELY_FAKE
  | SUSPICIOUS
  | LIKELY_AUTHENTIC
deriving DecidableEq

/-- One (user image, reference image) comparison record consumed by the
aggregator: `parseFloat`-ed `colorCorrelation`, `ssim` and
`sharpnessDifference`. -/
structure ComparisonResult where
  colorCorrelation : ℝ
  ssim : ℝ
  sharpnessDifference : ℝ

/-- Output of the authenticity aggregator. -/
structure AuthenticityVerdict where
  score : ℤ
  warnings : List Warning
  verdict : Verdict

/-- Verdict mapping of the /api/psa-compare handler:
`score < 50` fake, `score < 75` suspicious, otherwise authentic. -/
def verdictOf (score : ℤ) : Verdict :=
  if score < 50 then Verdict.LIKELY_FAKE
  else if score < 75 then Verdict.SUSPICIOUS
  else Verdict.LIKELY_AUTHENTIC

/-- `avgColorCorr = comparisonResults.reduce((a, r) => a + r.colorCorrelation, 0)
/ comparisonResults.length`. -/
noncomputable def avgColorCorrelation (comps : List ComparisonResult) : ℝ :=
  (comps.map fun c => c.colorCorrelation).sum / comps.length

/-- `avgSSIM`, averaged like the colour correlation. -/
noncomputable def avgSSIM (comps : List ComparisonResult) : ℝ :=
  (comps.map fun c => c.ssim).sum / comps.length

/-- `avgSharpDiff`, averaged like the colour correlation. -/
noncomputable def avgSharpnessDifference (comps : List ComparisonResult) : ℝ :=
  (comps.map fun c => c.sharpnessDifference).sum / comps.length

open Classical in
/-- Authenticity aggregation of the /api/psa-compare handler: start at 100;
with at least one comparison, deduct 25 when the average colour correlation
is below 0.7, another 25 when the average SSIM is below 0.6, another 20 when
the average sharpness difference exceeds 100, pushing one warning per
deduction; with no comparisons, fix the score at 50 with a single warning.
The verdict is then read off the final score. -/
noncomputable def aggregate (comps : List ComparisonResult) : AuthenticityVerdict :=
  if 0 < comps.length then
    let score : ℤ := 100 - (if avgColorCorrelation comps < 7 / 10 then 25 else 0) -
      (if avgSSIM comps < 6 / 10 then 25 else 0) -
      (if 100 < avgSharpnessDifference comps then 20 else 0)
    let warnings : List Warning :=
      (if avgColorCorrelation comps < 7 / 10 then [Warning.lowColorCorrelation] else []) ++
      (if avgSSIM comps < 6 / 10 then [Warning.lowStructuralSimilarity] else []) ++
      (if 100 < avgSharpnessDifference comps then [Warning.significantSharpnessDifference] else [])
    ⟨score, warnings, verdictOf score⟩
  else
    ⟨50, [Warning.noReferenceImages], verdictOf 50⟩

/-! Helper lemmas. -/

theorem verdictOf_fake {s : ℤ} (h : s < 50) : verdictOf s = Verdict.LIKELY_FAKE := by
  simp [verdictOf, h]

theorem verdictOf_suspicious {s : ℤ} (h1 : 50 ≤ s) (h2 : s < 75) :
    verdictOf s = Verdict.SUSPICIOUS := by
  simp [verdictOf, h2, not_lt.mpr h1]

theorem verdictOf_authentic {s : ℤ} (h : 75 ≤ s) :
    verdictOf s = Verdict.LIKELY_AUTHENTIC := by
  have h1 : ¬s < 50 := by omega
  have h2 : ¬s < 75 := by omega
  simp [verdictOf, h1, h2]

theorem clamp255_le (z : ℤ) : clamp255 z ≤ 255 := by
  unfold clamp255
  exact Int.toNat_le.mpr (min_le_left 255 _)

theorem grayAt_lt_256 (d : List ℕ) (i : ℕ) : grayAt d i < 256 :=
  Nat.lt_succ_of_le (clamp255_le _)

theorem entropyHistogram_le (p : PixelBuffer) (v : ℕ) :
    entropyHistogram p v ≤ p.width * p.height := by
  unfold entropyHistogram
  exact (Finset.card_filter_le _ _).trans_eq (Finset.card_range _)

theorem entropyHistogram_sum (p : PixelBuffer) :
    ∑ v ∈ Finset.range 256, entropyHistogram p v = p.width * p.height := by
  unfold entropyHistogram
  have h : (Finset.range (p.width * p.height)).card =
      ∑ v ∈ Finset.range 256, ((Finset.range (p.width * p.height)).filter
        fun i => grayAt p.data i = v).card :=
    Finset.card_eq_sum_card_fiberwise fun i _ =>
      Finset.mem_range.mpr (grayAt_lt_256 p.data i)
  rw [Finset.card_range] at h
  exact h.symm

theorem entropyValue_nonneg (p : PixelBuffer) : 0 ≤ entropyValue p := by
  unfold entropyValue
  refine Finset.sum_nonneg fun v hv => ?_
  rw [Finset.mem_filter] at hv
  have hc : 0 < entropyHistogram p v := hv.2
  have hcT : entropyHistogram p v ≤ p.width * p.height := entropyHistogram_le p v
  have hTpos : 0 < p.width * p.height := lt_of_lt_of_le hc hcT
  have hTr : (0 : ℝ) < (p.width : ℝ) * (p.height : ℝ) := by exact_mod_cast hTpos
  set q : ℝ := (entropyHistogram p v : ℝ) / ((p.width : ℝ) * (p.height : ℝ)) with hq
  have hq0 : 0 < q := by
    rw [hq]
    have : (0 : ℝ) < (entropyHistogram p v : ℝ) := by exact_mod_cast hc
    positivity
  have hq1 : q ≤ 1 := by
    rw [hq, div_le_one hTr]
    exact_mod_cast hcT
  have hlog : Real.logb 2 q ≤ 0 := by
    rw [Real.logb, div_nonpos_iff]
    right
    exact ⟨Real.log_nonpos (le_of_lt hq0) hq1, le_of_lt (Real.log_pos one_lt_two)⟩
  have hmul := mul_nonpos_of_nonneg_of_nonpos (le_of_lt hq0) hlog
  linarith

theorem entropyValue_le_eight (p : PixelBuffer) : entropyValue p ≤ 8 := by
  unfold entropyValue
  by_cases hF : ((Finset.range 256).filter fun v => 0 < entropyHistogram p v) = ∅
  · rw [hF]
    norm_num
  · have hTpos : 0 < p.width * p.height := by
      rcases Finset.nonempty_iff_ne_empty.mpr hF with ⟨v, hv⟩
      rw [Finset.mem_filter] at hv
      exact lt_of_lt_of_le hv.2 (entropyHistogram_le p v)
    have hTr : (0 : ℝ) < (p.width : ℝ) * (p.height : ℝ) := by exact_mod_cast hTpos
    set F := (Finset.range 256).filter fun v => 0 < entropyHistogram p v with hFdef
    set q : ℕ → ℝ :=
      fun v => (entropyHistogram p v : ℝ) / ((p.width : ℝ) * (p.height : ℝ)) with hqdef
    have hqpos : ∀ v ∈ F, 0 < q v := by
      intro v hv
      rw [hFdef, Finset.mem_filter] at hv
      have : (0 : ℝ) < (entropyHistogram p v : ℝ) := by exact_mod_cast hv.2
      positivity
    have hsumq : ∑ v ∈ F, q v = 1 := by
      have hext : ∑ v ∈ F, q v = ∑ v ∈ Finset.range 256, q v := by
        refine Finset.sum_subset (Finset.filter_subset _ _) fun v hv hnv => ?_
        rw [hFdef, Finset.mem_filter, not_and] at hnv
        have : entropyHistogram p v = 0 := Nat.eq_zero_of_not_pos (hnv hv)
        simp [hqdef, this]
      rw [hext, hqdef]
      simp only []
      rw [← Finset.sum_div, div_eq_one_iff_eq (ne_of_gt hTr)]
      have := entropyHistogram_sum p
      rw [← Nat.cast_sum, this, Nat.cast_mul]
    have hterm : ∀ v ∈ F, -(q v * Real.log (q v)) ≤
        q v * Real.log 256 + (1 / 256 - q v) := by
      intro v hv
      have hq0 := hqpos v hv
      have hx : (0 : ℝ) < 1 / (256 * q v) := by positivity
      have hgibbs := Real.log_le_sub_one_of_pos hx
      have hlog1 : Real.log (1 / (256 * q v)) = -(Real.log 256 + Real.log (q v)) := by
        rw [one_div, Real.log_inv, Real.log_mul (by norm_num) (ne_of_gt hq0)]
      rw [hlog1] at hgibbs
      have hmul := mul_le_mul_of_nonneg_left hgibbs (le_of_lt hq0)
      have hsimp : q v * (1 / (256 * q v) - 1) = 1 / 256 - q v := by
        field_simp
        ring
      rw [hsimp] at hmul
      nlinarith
    have hsum : ∑ v ∈ F, -(q v * Real.log (q v)) ≤ Real.log 256 := by
      calc ∑ v ∈ F, -(q v * Real.log (q v))
          ≤ ∑ v ∈ F, (q v * Real.log 256 + (1 / 256 - q v)) :=
            Finset.sum_le_sum hterm
        _ = Real.log 256 * (∑ v ∈ F, q v) + (F.card : ℝ) / 256 - ∑ v ∈ F, q v := by
            rw [Finset.sum_add_distrib, Finset.sum_sub_distrib]
            rw [Finset.sum_const, ← Finset.sum_mul]
            ring
        _ ≤ Real.log 256 := by
            rw [hsumq]
            have hcard : (F.card : ℝ) ≤ 256 := by
              have : F.card ≤ 256 := by
                rw [hFdef]
                exact (Finset.card_filter_le _ _).trans_eq (Finset.card_range _)
              exact_mod_cast this
            linarith
    have hlog2pos : 0 < Real.log 2 := Real.log_pos one_lt_two
    have hlog256 : Real.log 256 = 8 * Real.log 2 := by
      rw [show (256 : ℝ) = 2 ^ 8 by norm_num, Real.log_pow]
      push_cast
      ring
    have hrw : ∀ v ∈ F, -(q v * Real.logb 2 (q v)) =
        -(q v * Real.log (q v)) / Real.log 2 := by
      intro v _
      rw [Real.logb]
      ring
    calc ∑ v ∈ F, -((entropyHistogram p v : ℝ) / ((p.width : ℝ) * (p.height : ℝ)) *
          Real.logb 2 ((entropyHistogram p v : ℝ) / ((p.width : ℝ) * (p.height : ℝ))))
        = ∑ v ∈ F, -(q v * Real.logb 2 (q v)) := by rw [hqdef]
      _ = (∑ v ∈ F, -(q v * Real.log (q v))) / Real.log 2 := by
          rw [Finset.sum_div]
          exact Finset.sum_congr rfl hrw
      _ ≤ Real.log 256 / Real.log 2 :=
          div_le_div_of_nonneg_right hsum (le_of_lt hlog2pos)
      _ = 8 := by
          rw [hlog256]
          field_simp

theorem entropyScore_bounds (p : PixelBuffer) :
    0 ≤ entropyScore p ∧ entropyScore p ≤ 10 := by
  unfold entropyScore
  constructor
  · have := entropyValue_nonneg p
    linarith
  · have := entropyValue_le_eight p
    linarith

theorem min10_bounds {α : Type} [LinearOrderedField α] {x : α} (hx : 0 ≤ x) :
    0 ≤ min 10 x ∧ min 10 x ≤ 10 :=
  ⟨le_min (by norm_num) hx, min_le_left _ _⟩

theorem cannyScore_bounds (p : PixelBuffer) :
    0 ≤ cannyScore p ∧ cannyScore p ≤ 10 := by
  unfold cannyScore
  refine min10_bounds ?_
  unfold cannyEdgeDensity
  positivity

theorem labTotalDelta_nonneg (p : PixelBuffer) : 0 ≤ labTotalDelta p := by
  unfold labTotalDelta
  apply List.sum_nonneg
  intro x hx
  rw [List.mem_map] at hx
  obtain ⟨pr, _, rfl⟩ := hx
  positivity

theorem labAvgDelta_nonneg (p : PixelBuffer) : 0 ≤ labAvgDelta p := by
  unfold labAvgDelta
  split
  · exact div_nonneg (labTotalDelta_nonneg p) (by positivity)
  · exact le_refl 0

theorem labScore_bounds (p : PixelBuffer) :
    0 ≤ labScore p ∧ labScore p ≤ 10 := by
  unfold labScore
  refine ⟨le_max_left 0 _, ?_⟩
  have := labAvgDelta_nonneg p
  apply max_le (by norm_num)
  linarith

theorem lbpUniformity_bounds (p : PixelBuffer) :
    0 ≤ lbpUniformity p ∧ lbpUniformity p ≤ 100 := by
  unfold lbpUniformity
  split
  · rename_i h
    have h0 : (0 : ℚ) < (lbpTotalPatterns p : ℚ) := by exact_mod_cast h
    have hle0 : lbpUniformPatterns p ≤ lbpTotalPatterns p := Finset.card_filter_le _ _
    have hle : (lbpUniformPatterns p : ℚ) ≤ (lbpTotalPatterns p : ℚ) := by
      exact_mod_cast hle0
    have hdiv : (lbpUniformPatterns p : ℚ) / (lbpTotalPatterns p : ℚ) ≤ 1 :=
      (div_le_one h0).mpr hle
    constructor
    · positivity
    · nlinarith
  · norm_num

theorem lbpScore_bounds (p : PixelBuffer) :
    0 ≤ lbpScore p ∧ lbpScore p ≤ 10 := by
  have h := lbpUniformity_bounds p
  unfold lbpScore
  constructor <;> linarith [h.1, h.2]

theorem hogVariance_nonneg (p : PixelBuffer) : 0 ≤ hogVariance p := by
  unfold hogVariance hogMaxBin hogMinBin
  have h1 : hogBin p 0 ≤ (Finset.range 9).sup' ⟨0, by simp⟩ (hogBin p) :=
    Finset.le_sup' _ (by simp)
  have h2 : (Finset.range 9).inf' ⟨0, by simp⟩ (hogBin p) ≤ hogBin p 0 :=
    Finset.inf'_le _ (by simp)
  linarith

theorem hogScore_bounds (p : PixelBuffer) :
    0 ≤ hogScore p ∧ hogScore p ≤ 10 := by
  unfold hogScore
  refine min10_bounds ?_
  have := hogVariance_nonneg p
  linarith

theorem lapSumSq_nonneg (p : PixelBuffer) : (0 : ℤ) ≤ lapSumSq p := by
  unfold lapSumSq
  exact Finset.sum_nonneg fun q _ => sq_nonneg _

theorem lapVariance_nonneg (p : PixelBuffer) : 0 ≤ lapVariance p := by
  unfold lapVariance
  split
  · have h := lapSumSq_nonneg p
    have : (0 : ℚ) ≤ (lapSumSq p : ℚ) := by exact_mod_cast h
    exact div_nonneg this (by positivity)
  · exact le_refl 0

theorem lapScore_bounds (p : PixelBuffer) :
    0 ≤ lapScore p ∧ lapScore p ≤ 10 := by
  unfold lapScore
  refine min10_bounds ?_
  have := lapVariance_nonneg p
  linarith

theorem harrisResponse_nonpos (p : PixelBuffer) (x y : ℕ) :
    harrisResponse p x y ≤ 0 := by
  unfold harrisResponse
  have key : (harrisIx p x y * harrisIx p x y) * (harrisIy p x y * harrisIy p x y) -
      (harrisIx p x y * harrisIy p x y) * (harrisIx p x y * harrisIy p x y) -
      (4 / 100 : ℚ) * (harrisIx p x y * harrisIx p x y + harrisIy p x y * harrisIy p x y) *
        (harrisIx p x y * harrisIx p x y + harrisIy p x y * harrisIy p x y) =
      -(4 / 100) * (harrisIx p x y * harrisIx p x y +
        harrisIy p x y * harrisIy p x y) ^ 2 := by ring
  simp only []
  rw [key]
  have hsq : (0 : ℚ) ≤ (harrisIx p x y * harrisIx p x y +
      harrisIy p x y * harrisIy p x y) ^ 2 := sq_nonneg _
  nlinarith

theorem harrisCorners_zero (p : PixelBuffer) : harrisCorners p = 0 := by
  unfold harrisCorners
  rw [Finset.card_eq_zero, Finset.filter_eq_empty_iff]
  intro q _
  have := harrisResponse_nonpos p q.1 q.2
  push_neg
  linarith

theorem harrisScore_zero (p : PixelBuffer) : harrisScore p = 0 := by
  unfold harrisScore harrisCornerDensity
  rw [harrisCorners_zero]
  norm_num

theorem houghScore_bounds (p : PixelBuffer) :
    0 ≤ houghScore p ∧ houghScore p ≤ 10 := by
  unfold houghScore
  refine min10_bounds ?_
  positivity

theorem byteAt_le (p : PixelBuffer) (hv : p.valid) (i : ℕ) :
    byteAt p.data i ≤ 255 := by
  unfold byteAt
  rcases lt_or_ge i p.data.length with h | h
  · rw [List.getD_eq_getElem _ _ h]
    exact hv.2.2.2 _ (List.getElem_mem _)
  · rw [List.getD_eq_default _ _ h]
    norm_num

theorem colorBinIdx_lt (p : PixelBuffer) (hv : p.valid) (i : ℕ) :
    colorBinIdx p.data i < 512 := by
  unfold colorBinIdx
  have h1 := byteAt_le p hv (i * 4)
  have h2 := byteAt_le p hv (i * 4 + 1)
  have h3 := byteAt_le p hv (i * 4 + 2)
  omega

theorem colorHist_sum (p : PixelBuffer) (hv : p.valid) :
    ∑ j ∈ Finset.range 512, colorHist p.data (p.width * p.height) j =
      p.width * p.height := by
  unfold colorHist
  have h : (Finset.range (p.width * p.height)).card =
      ∑ j ∈ Finset.range 512, ((Finset.range (p.width * p.height)).filter
        fun i => colorBinIdx p.data i = j).card :=
    Finset.card_eq_sum_card_fiberwise fun i _ =>
      Finset.mem_range.mpr (colorBinIdx_lt p hv i)
  rw [Finset.card_range] at h
  exact h.symm

/-- The 512-bin colour histogram of a standardized 900x1200 buffer cannot
have all centered deviations zero: 512 does not divide 1080000 pixels. -/
theorem colorSqSum_ne_zero (p : PixelBuffer) (hv : p.valid) (hw : p.width = 900)
    (hh : p.height = 1200) :
    colorSqSum p.data (p.width * p.height) ≠ 0 := by
  intro hS
  set T := p.width * p.height with hT
  have hT' : T = 1080000 := by rw [hT, hw, hh]
  have hTpos : (0 : ℚ) < (T : ℚ) := by
    rw [hT']
    norm_num
  have hdev : ∀ j ∈ Finset.range 512, colorHistDev p.data T j = 0 := by
    intro j hj
    have h := (Finset.sum_eq_zero_iff_of_nonneg fun j _ => sq_nonneg
      (colorHistDev p.data T j)).mp hS j hj
    exact pow_eq_zero_iff (two_ne_zero) |>.mp h
  have hEq : ∀ j ∈ Finset.range 512,
      colorHist p.data T j = colorHist p.data T 0 := by
    intro j hj
    have h1 := hdev j hj
    have h2 := hdev 0 (by norm_num)
    unfold colorHistDev at h1 h2
    have hn : colorHistNorm p.data T j = colorHistNorm p.data T 0 := by linarith
    unfold colorHistNorm at hn
    rw [div_eq_div_iff (ne_of_gt hTpos) (ne_of_gt hTpos)] at hn
    have := mul_right_cancel₀ (ne_of_gt hTpos) hn
    exact_mod_cast this
  have hs := colorHist_sum p hv
  rw [← hT, Finset.sum_congr rfl hEq, Finset.sum_const, Finset.card_range,
    smul_eq_mul] at hs
  omega

/-- The clamp `Math.max(0, Math.min(1, x))` lands in [0, 1]. -/
theorem clamp01_bounds {α : Type} [LinearOrderedField α] (x : α) :
    0 ≤ max 0 (min 1 x) ∧ max 0 (min 1 x) ≤ 1 :=
  ⟨le_max_left _ _, max_le zero_le_one (min_le_left _ _)⟩

theorem histCorrelation_self (p : PixelBuffer) (hv : p.valid) (hw : p.width = 900)
    (hh : p.height = 1200) :
    histCorrelation p.data p.data p.width p.height = 1 := by
  have hnum : colorCorrNum p.data p.data (p.width * p.height) =
      colorSqSum p.data (p.width * p.height) := by
    unfold colorCorrNum colorSqSum
    exact Finset.sum_congr rfl fun j _ => (sq (colorHistDev p.data _ j)).symm
  have hS0 : 0 ≤ colorSqSum p.data (p.width * p.height) :=
    Finset.sum_nonneg fun j _ => sq_nonneg _
  have hSne := colorSqSum_ne_zero p hv hw hh
  have hS0R : (0 : ℝ) ≤ ((colorSqSum p.data (p.width * p.height) : ℚ) : ℝ) := by
    exact_mod_cast hS0
  have hSneR : ((colorSqSum p.data (p.width * p.height) : ℚ) : ℝ) ≠ 0 := by
    exact_mod_cast hSne
  unfold histCorrelation
  rw [hnum, Real.mul_self_sqrt hS0R, if_neg hSneR, div_self hSneR]
  norm_num

theorem grayVar_nonneg (d : List ℕ) (n : ℕ) : 0 ≤ grayVar d n := by
  unfold grayVar
  exact div_nonneg (Finset.sum_nonneg fun i _ => sq_nonneg _) (by positivity)

theorem calcSSIM_self (d : List ℕ) (w h : ℕ) : calcSSIM d d w h = 1 := by
  unfold calcSSIM
  have hcov : grayCovar d d (w * h) = grayVar d (w * h) := by
    unfold grayCovar grayVar
    congr 1
    exact Finset.sum_congr rfl fun i _ => (sq _).symm
  rw [hcov]
  have hv0 := grayVar_nonneg d (w * h)
  have h1 : 0 ≤ grayMean d (w * h) * grayMean d (w * h) := mul_self_nonneg _
  have hXpos : 0 < (grayMean d (w * h) * grayMean d (w * h) +
      grayMean d (w * h) * grayMean d (w * h) + 65025 / 10000) *
      (grayVar d (w * h) + grayVar d (w * h) + 585225 / 10000) := by nlinarith
  have hnum_eq : (2 * grayMean d (w * h) * grayMean d (w * h) + 65025 / 10000) *
      (2 * grayVar d (w * h) + 585225 / 10000) =
      (grayMean d (w * h) * grayMean d (w * h) +
        grayMean d (w * h) * grayMean d (w * h) + 65025 / 10000) *
      (grayVar d (w * h) + grayVar d (w * h) + 585225 / 10000) := by ring
  rw [hnum_eq, div_self (ne_of_gt hXpos)]
  norm_num

/-- A concrete valid standardized 900x1200 all-black buffer. -/
def stdBlack : PixelBuffer := ⟨900, 1200, List.replicate 4320000 0⟩

theorem stdBlack_valid : stdBlack.valid := by
  refine ⟨?_, ?_, ?_, ?_⟩
  · show (1 : ℕ) ≤ 900
    norm_num
  · show (1 : ℕ) ≤ 1200
    norm_num
  · show (List.replicate 4320000 0).length = 900 * 1200 * 4
    rw [List.length_replicate]
  · intro b hb
    have := List.eq_of_mem_replicate (show b ∈ List.replicate 4320000 0 from hb)
    omega

/-- A concrete valid 1x1 all-black buffer. -/
def onePixelBlack : PixelBuffer := ⟨1, 1, [0, 0, 0, 0]⟩

/-- A concrete valid 2x2 all-black buffer (degenerate: both sides < 3). -/
def twoByTwoBlack : PixelBuffer := ⟨2, 2, List.replicate 16 0⟩

/-- A concrete valid 3x3 all-black buffer. -/
def threeByThreeBlack : PixelBuffer := ⟨3, 3, List.replicate 36 0⟩

/-- Pixel data of a 3x3 image: black with a white centre pixel. -/
def dotData : List ℕ :=
  [0, 0, 0, 255, 0, 0, 0, 255, 0, 0, 0, 255,
   0, 0, 0, 255, 255, 255, 255, 255, 0, 0, 0, 255,
   0, 0, 0, 255, 0, 0, 0, 255, 0, 0, 0, 255]

/-- A concrete valid 3x3 buffer: black with a white centre pixel. -/
def threeByThreeDot : PixelBuffer := ⟨3, 3, dotData⟩

/-- Grayscale of a pixel with equal channels is that channel value (the three
weights sum to exactly 1). -/
theorem grayAt_uniform (d : List ℕ) (i v : ℕ) (hv : v ≤ 255)
    (h1 : byteAt d (i * 4) = v) (h2 : byteAt d (i * 4 + 1) = v)
    (h3 : byteAt d (i * 4 + 2) = v) : grayAt d i = v := by
  unfold grayAt
  rw [h1, h2, h3]
  have hs : (299 / 1000 : ℚ) * (v : ℚ) + (587 / 1000 : ℚ) * (v : ℚ) +
      (114 / 1000 : ℚ) * (v : ℚ) = (v : ℚ) := by ring
  rw [hs, round_natCast]
  unfold clamp255
  have hmax : max 0 ((v : ℕ) : ℤ) = ((v : ℕ) : ℤ) := max_eq_right (by positivity)
  have hmin : min 255 ((v : ℕ) : ℤ) = ((v : ℕ) : ℤ) := min_eq_right (by exact_mod_cast hv)
  rw [hmax, hmin, Int.toNat_natCast]

theorem byteAt_replicate_zero (n i : ℕ) : byteAt (List.replicate n 0) i = 0 := by
  unfold byteAt
  rcases lt_or_ge i n with h | h
  · rw [List.getD_eq_getElem _ _ (by simpa using h)]
    simp
  · rw [List.getD_eq_default _ _ (by simpa using h)]

theorem grayAt_replicate_zero (n i : ℕ) : grayAt (List.replicate n 0) i = 0 :=
  grayAt_uniform _ i 0 (by norm_num) (byteAt_replicate_zero n _)
    (byteAt_replicate_zero n _) (byteAt_replicate_zero n _)

theorem conv3_replicate_zero (k : List ℤ) (w h n x y : ℕ) :
    conv3 k ⟨w, h, List.replicate n 0⟩ x y = 0 := by
  unfold conv3 PixelBuffer.gray
  refine Finset.sum_eq_zero fun ky _ => Finset.sum_eq_zero fun kx _ => ?_
  rw [grayAt_replicate_zero]
  norm_num

theorem calcSharpSum_black :
    calcSharpSum threeByThreeBlack.data threeByThreeBlack.width
      threeByThreeBlack.height = 0 := by
  show calcSharpSum (List.replicate 36 0) 3 3 = 0
  unfold calcSharpSum
  exact Finset.sum_eq_zero fun q _ => conv3_replicate_zero _ _ _ _ _ _

theorem lapResponse_dot : lapResponse threeByThreeDot 1 1 = 1020 := by
  have hg0 : grayAt dotData 0 = 0 :=
    grayAt_uniform _ _ _ (by norm_num) (by decide) (by decide) (by decide)
  have hg1 : grayAt dotData 1 = 0 :=
    grayAt_uniform _ _ _ (by norm_num) (by decide) (by decide) (by decide)
  have hg2 : grayAt dotData 2 = 0 :=
    grayAt_uniform _ _ _ (by norm_num) (by decide) (by decide) (by decide)
  have hg3 : grayAt dotData 3 = 0 :=
    grayAt_uniform _ _ _ (by norm_num) (by decide) (by decide) (by decide)
  have hg4 : grayAt dotData 4 = 255 :=
    grayAt_uniform _ _ _ (by norm_num) (by decide) (by decide) (by decide)
  have hg5 : grayAt dotData 5 = 0 :=
    grayAt_uniform _ _ _ (by norm_num) (by decide) (by decide) (by decide)
  have hg6 : grayAt dotData 6 = 0 :=
    grayAt_uniform _ _ _ (by norm_num) (by decide) (by decide) (by decide)
  have hg7 : grayAt dotData 7 = 0 :=
    grayAt_uniform _ _ _ (by norm_num) (by decide) (by decide) (by decide)
  have hg8 : grayAt dotData 8 = 0 :=
    grayAt_uniform _ _ _ (by norm_num) (by decide) (by decide) (by decide)
  unfold lapResponse conv3 PixelBuffer.gray threeByThreeDot
  simp only [Finset.sum_range_succ, Finset.sum_range_zero]
  norm_num
  rw [hg0, hg1, hg2, hg3, hg4, hg5, hg6, hg7, hg8]
  decide

theorem interior_threeByThree : interior 3 3 = {(1, 1)} := by decide

theorem lapSumSq_dot : lapSumSq threeByThreeDot = 1040400 := by
  unfold lapSumSq
  show ∑ q ∈ interior 3 3, lapResponse threeByThreeDot q.1 q.2 ^ 2 = 1040400
  rw [interior_threeByThree, Finset.sum_singleton, lapResponse_dot]
  norm_num

theorem lapVariance_dot : lapVariance threeByThreeDot = 1040400 := by
  unfold lapVariance
  have hset : interior threeByThreeDot.width threeByThreeDot.height = {(1, 1)} :=
    interior_threeByThree
  rw [hset, lapSumSq_dot]
  norm_num

/-- On any 3x3 image the comparator's sharpness is 0: there is a single
interior pixel, and one sample always has zero statistical variance. -/
theorem calcSharpness_threeByThree (d : List ℕ) : calcSharpness d 3 3 = 0 := by
  unfold calcSharpness calcSharpSum calcSharpSumSq
  rw [interior_threeByThree]
  rw [Finset.sum_singleton, Finset.sum_singleton, Finset.card_singleton]
  push_cast
  rw [div_one, div_one]
  rw [show ∀ r : ℚ, r ^ 2 - r * r = 0 from fun r => by ring]
  exact abs_zero

/-- The comparator's kernel is the analyzer's Laplacian kernel negated, so
the per-pixel responses are negatives of each other. -/
theorem conv3_sharpKernel_neg (p : PixelBuffer) (x y : ℕ) :
    conv3 sharpKernel p x y = -conv3 laplacianKernel p x y := by
  unfold conv3 sharpKernel laplacianKernel
  simp [Finset.sum_range_succ, List.getD]
  ring

theorem calcSharpSumSq_eq (d : List ℕ) (w h : ℕ) :
    calcSharpSumSq d w h = lapSumSq ⟨w, h, d⟩ := by
  unfold calcSharpSumSq lapSumSq lapResponse
  refine Finset.sum_congr rfl fun q _ => ?_
  rw [conv3_sharpKernel_neg]
  ring

theorem sampleStep_eq_nat_sqrt (p : PixelBuffer) :
    sampleStep p = max 1 (Nat.sqrt (p.width * p.height) / 100) := by
  unfold sampleStep
  rw [Int.floor_toNat]
  have h100 : (100 : ℝ) = ((100 : ℕ) : ℝ) := by norm_num
  rw [h100, Nat.floor_div_nat, Real.nat_floor_real_sqrt_eq_nat_sqrt]

/-- The sampling loop visits exactly the stride-multiples below the limit:
it is the arithmetic progression starting at `v` with the given stride and
`⌈(limit - v) / stp⌉` terms, hence terminates after finitely many
iterations for every positive stride. -/
theorem gridPoints_eq_range' (stp limit v : ℕ) (hs : 0 < stp) :
    gridPoints stp limit v = List.range' v ((limit - v + stp - 1) / stp) stp := by
  by_cases h : v < limit
  · rw [gridPoints, dif_pos ⟨h, hs⟩, gridPoints_eq_range' stp limit (v + stp) hs]
    have harg : limit - v + stp - 1 = (limit - v - 1) + stp := by omega
    rw [harg, Nat.add_div_right _ hs, List.range'_succ]
    congr 1
    rcases le_or_lt stp (limit - v) with hc | hc
    · have h1 : limit - (v + stp) + stp - 1 = limit - v - 1 := by omega
      rw [h1]
    · have h1 : limit - (v + stp) = 0 := by omega
      rw [h1, Nat.div_eq_of_lt (by omega), Nat.div_eq_of_lt (by omega)]
  · rw [gridPoints, dif_neg fun hc => h hc.1]
    have h0 : limit - v = 0 := by omega
    rw [h0, Nat.div_eq_of_lt (by omega)]
    rfl
termination_by limit - v
decreasing_by omega

theorem interior_eq_empty {w h : ℕ} (hwh : w < 3 ∨ h < 3) :
    interior w h = ∅ := by
  unfold interior
  rcases hwh with hw | hh
  · have hx : Finset.Ico 1 (w - 1) = ∅ := Finset.Ico_eq_empty (by omega)
    rw [hx, Finset.empty_product]
  · have hy : Finset.Ico 1 (h - 1) = ∅ := Finset.Ico_eq_empty (by omega)
    rw [hy, Finset.product_empty]

/-! Claim theorems. -/

/-- C3: with zero usable reference comparisons, the /api/psa-compare
aggregation returns exactly score 50, verdict SUSPICIOUS and a single
warning that no reference images were available. -/
theorem aggregate_no_references :
    aggregate [] = ⟨50, [Warning.noReferenceImages], Verdict.SUSPICIOUS⟩ := by
  have : verdictOf 50 = Verdict.SUSPICIOUS := verdictOf_suspicious le_rfl (by norm_num)
  simp [aggregate, this]

/-- C9: the aggregator's score is an integer (its type is `ℤ`) bounded below
by 30 and above by 100 for every comparison set: the deductions total at
most 25 + 25 + 20 = 70 from the start of 100, and the zero-comparison case
fixes 50; in particular the score is never negative, so the unenforced floor
at 0 is unreachable. -/
theorem aggregate_score_bounds (comps : List ComparisonResult) :
    30 ≤ (aggregate comps).score ∧ (aggregate comps).score ≤ 100 := by
  unfold aggregate
  split
  · constructor <;> · simp only; split_ifs <;> norm_num
  · simp

/-- C2: with at least one comparison, the aggregate score is 100 minus an
independent 25 when the average colour correlation is below 0.70, minus 25
when the average structural similarity is below 0.60, minus 20 when the
average sharpness difference exceeds 100, one warning per deduction; the
verdict is LIKELY_FAKE below 50, SUSPICIOUS in [50, 75), LIKELY_AUTHENTIC
from 75 up. -/
theorem aggregate_nonempty_spec (comps : List ComparisonResult) (h : comps ≠ []) :
    (aggregate comps).score =
      100 - (if avgColorCorrelation comps < 7 / 10 then 25 else 0) -
        (if avgSSIM comps < 6 / 10 then 25 else 0) -
        (if 100 < avgSharpnessDifference comps then 20 else 0) ∧
    (aggregate comps).warnings =
      (if avgColorCorrelation comps < 7 / 10 then [Warning.lowColorCorrelation] else []) ++
      (if avgSSIM comps < 6 / 10 then [Warning.lowStructuralSimilarity] else []) ++
      (if 100 < avgSharpnessDifference comps then [Warning.significantSharpnessDifference] else []) ∧
    ((aggregate comps).score < 50 → (aggregate comps).verdict = Verdict.LIKELY_FAKE) ∧
    (50 ≤ (aggregate comps).score → (aggregate comps).score < 75 →
      (aggregate comps).verdict = Verdict.SUSPICIOUS) ∧
    (75 ≤ (aggregate comps).score → (aggregate comps).verdict = Verdict.LIKELY_AUTHENTIC) := by
  have hl : 0 < comps.length := List.length_pos.mpr h
  have hagg : aggregate comps =
      ⟨100 - (if avgColorCorrelation comps < 7 / 10 then 25 else 0) -
        (if avgSSIM comps < 6 / 10 then 25 else 0) -
        (if 100 < avgSharpnessDifference comps then 20 else 0),
       (if avgColorCorrelation comps < 7 / 10 then [Warning.lowColorCorrelation] else []) ++
       (if avgSSIM comps < 6 / 10 then [Warning.lowStructuralSimilarity] else []) ++
       (if 100 < avgSharpnessDifference comps then [Warning.significantSharpnessDifference] else []),
       verdictOf (100 - (if avgColorCorrelation comps < 7 / 10 then 25 else 0) -
        (if avgSSIM comps < 6 / 10 then 25 else 0) -
        (if 100 < avgSharpnessDifference comps then 20 else 0))⟩ := by
    simp [aggregate, hl]
  refine ⟨by rw [hagg], by rw [hagg], ?_, ?_, ?_⟩
  · intro hs; rw [hagg] at hs ⊢; exact verdictOf_fake hs
  · intro hs1 hs2; rw [hagg] at hs1 hs2 ⊢; exact verdictOf_suspicious hs1 hs2
  · intro hs; rw [hagg] at hs ⊢; exact verdictOf_authentic hs

/-- Witness for C2 at a concrete comparison triggering all three
deductions. -/
theorem aggregate_nonempty_spec_witness :
    ([(⟨1 / 2, 1 / 2, 200⟩ : ComparisonResult)] ≠ []) ∧
    ((aggregate [⟨1 / 2, 1 / 2, 200⟩]).score =
      100 - (if avgColorCorrelation [⟨1 / 2, 1 / 2, 200⟩] < 7 / 10 then 25 else 0) -
        (if avgSSIM [⟨1 / 2, 1 / 2, 200⟩] < 6 / 10 then 25 else 0) -
        (if 100 < avgSharpnessDifference [⟨1 / 2, 1 / 2, 200⟩] then 20 else 0) ∧
    (aggregate [⟨1 / 2, 1 / 2, 200⟩]).warnings =
      (if avgColorCorrelation [⟨1 / 2, 1 / 2, 200⟩] < 7 / 10 then [Warning.lowColorCorrelation] else []) ++
      (if avgSSIM [⟨1 / 2, 1 / 2, 200⟩] < 6 / 10 then [Warning.lowStructuralSimilarity] else []) ++
      (if 100 < avgSharpnessDifference [⟨1 / 2, 1 / 2, 200⟩] then [Warning.significantSharpnessDifference] else []) ∧
    ((aggregate [⟨1 / 2, 1 / 2, 200⟩]).score < 50 →
      (aggregate [⟨1 / 2, 1 / 2, 200⟩]).verdict = Verdict.LIKELY_FAKE) ∧
    (50 ≤ (aggregate [⟨1 / 2, 1 / 2, 200⟩]).score →
      (aggregate [⟨1 / 2, 1 / 2, 200⟩]).score < 75 →
      (aggregate [⟨1 / 2, 1 / 2, 200⟩]).verdict = Verdict.SUSPICIOUS) ∧
    (75 ≤ (aggregate [⟨1 / 2, 1 / 2, 200⟩]).score →
      (aggregate [⟨1 / 2, 1 / 2, 200⟩]).verdict = Verdict.LIKELY_AUTHENTIC)) :=
  ⟨by simp, aggregate_nonempty_spec [⟨1 / 2, 1 / 2, 200⟩] (by simp)⟩

/-- C5: the Harris corner detector never counts a corner and always scores 0:
with `Ixy = Ix*Iy` the determinant `Ixx*Iyy - Ixy*Ixy` vanishes identically,
so the response `det - 0.04*trace^2` is nonpositive and never exceeds the
threshold 10000. -/
theorem harris_always_zero (p : PixelBuffer) :
    (∀ x y : ℕ, harrisResponse p x y ≤ 0) ∧
    harrisCorners p = 0 ∧ harrisScore p = 0 :=
  ⟨fun x y => harrisResponse_nonpos p x y, harrisCorners_zero p, harrisScore_zero p⟩

/-- C10: the /api/cv analysis is a pure function of the pixel buffer: it
never touches the server's mutable cache, running it twice in sequence
yields identical result lists, and the results do not depend on the cache
contents at all. -/
theorem analyze_deterministic (s t : ServerState) (p : PixelBuffer) :
    (analyzeRun s p).2 = s ∧
    (analyzeRun s p).1 = (analyzeRun (analyzeRun s p).2 p).1 ∧
    (analyzeRun s p).1 = (analyzeRun t p).1 :=
  ⟨rfl, rfl, rfl⟩

/-- C1: on every valid buffer, `analyze` produces exactly 8 results in the
fixed source order (edge, colour deviation, texture uniformity, gradient
histogram, entropy, sharpness, corners, lines), each with a score
in [0, 10]. -/
theorem analyze_eight_results (p : PixelBuffer) (_hv : p.valid) :
    (analyze p).length = 8 ∧
    (analyze p).map (fun r => r.name) =
      ["Canny Edge Detection", "LAB Color Delta-E", "Local Binary Patterns",
       "Histogram of Gradients", "Entropy Analysis", "Laplacian Sharpness",
       "Harris Corner Detection", "Hough Line Transform"] ∧
    ∀ r ∈ analyze p, 0 ≤ r.score ∧ r.score ≤ 10 := by
  refine ⟨rfl, rfl, ?_⟩
  intro r hr
  simp only [analyze, List.mem_cons, List.not_mem_nil, or_false] at hr
  rcases hr with rfl | rfl | rfl | rfl | rfl | rfl | rfl | rfl
  · exact cannyScore_bounds p
  · exact labScore_bounds p
  · have h := lbpScore_bounds p
    constructor
    · show (0 : ℝ) ≤ ((lbpScore p : ℚ) : ℝ)
      exact_mod_cast h.1
    · show ((lbpScore p : ℚ) : ℝ) ≤ 10
      exact_mod_cast h.2
  · exact hogScore_bounds p
  · exact entropyScore_bounds p
  · have h := lapScore_bounds p
    constructor
    · show (0 : ℝ) ≤ ((lapScore p : ℚ) : ℝ)
      exact_mod_cast h.1
    · show ((lapScore p : ℚ) : ℝ) ≤ 10
      exact_mod_cast h.2
  · have h : harrisScore p = 0 := harrisScore_zero p
    constructor
    · simp [h]
    · simp only [h]
      norm_num
  · exact houghScore_bounds p

/-- C6: the colour-deviation analyzer's stride is `max(1, ⌊√(W*H)/100⌋)`
(expressed through the natural square root), hence at least 1; each sampling
loop visits exactly the finite arithmetic progression of stride-multiples
below its bound, so both loops terminate on every valid buffer (including
those with `W*H < 10000`, where the floor is 0 and the max forces stride 1);
and the score is `max(0, 10 - avgDelta/50)`. -/
theorem lab_sampling_spec (p : PixelBuffer) (_hv : p.valid) :
    sampleStep p = max 1 (Nat.sqrt (p.width * p.height) / 100) ∧
    1 ≤ sampleStep p ∧
    gridPoints (sampleStep p) p.height 0 =
      List.range' 0 ((p.height + sampleStep p - 1) / sampleStep p) (sampleStep p) ∧
    gridPoints (sampleStep p) p.width 0 =
      List.range' 0 ((p.width + sampleStep p - 1) / sampleStep p) (sampleStep p) ∧
    labScore p = max 0 (10 - labAvgDelta p / 50) := by
  refine ⟨sampleStep_eq_nat_sqrt p, sampleStep_pos p, ?_, ?_, rfl⟩
  · have h := gridPoints_eq_range' (sampleStep p) p.height 0 (sampleStep_pos p)
    simpa using h
  · have h := gridPoints_eq_range' (sampleStep p) p.width 0 (sampleStep_pos p)
    simpa using h

/-- Witness for C6 at the concrete valid 2x2 black buffer, whose pixel count
4 is far below 10000. -/
theorem lab_sampling_spec_witness :
    twoByTwoBlack.valid ∧
    (sampleStep twoByTwoBlack =
      max 1 (Nat.sqrt (twoByTwoBlack.width * twoByTwoBlack.height) / 100) ∧
    1 ≤ sampleStep twoByTwoBlack ∧
    gridPoints (sampleStep twoByTwoBlack) twoByTwoBlack.height 0 =
      List.range' 0 ((twoByTwoBlack.height + sampleStep twoByTwoBlack - 1) /
        sampleStep twoByTwoBlack) (sampleStep twoByTwoBlack) ∧
    gridPoints (sampleStep twoByTwoBlack) twoByTwoBlack.width 0 =
      List.range' 0 ((twoByTwoBlack.width + sampleStep twoByTwoBlack - 1) /
        sampleStep twoByTwoBlack) (sampleStep twoByTwoBlack) ∧
    labScore twoByTwoBlack = max 0 (10 - labAvgDelta twoByTwoBlack / 50)) :=
  ⟨by decide, lab_sampling_spec twoByTwoBlack (by decide)⟩

/-- C4 (amended): on a degenerate image (width or height < 3) the six
interior-loop algorithms — edge, texture uniformity, gradient histogram,
sharpness, corners, lines — return zero-valued metrics and score 0 without
error; the colour-deviation and entropy analyzers also run without error
but their scores need not be 0 (see the counterexample). -/
theorem degenerate_image_zero (p : PixelBuffer) (_hv : p.valid)
    (hsmall : p.width < 3 ∨ p.height < 3) :
    cannyEdgePixels p = 0 ∧ cannyScore p = 0 ∧
    lbpUniformPatterns p = 0 ∧ lbpTotalPatterns p = 0 ∧
    lbpUniformity p = 0 ∧ lbpScore p = 0 ∧
    hogVariance p = 0 ∧ hogScore p = 0 ∧
    lapSumSq p = 0 ∧ lapVariance p = 0 ∧ lapScore p = 0 ∧
    harrisCorners p = 0 ∧ harrisScore p = 0 ∧
    houghEdgeCount p = 0 ∧ houghLines p = 0 ∧ houghScore p = 0 := by
  have hie := interior_eq_empty hsmall
  have hcanny : cannyEdgePixels p = 0 := by
    unfold cannyEdgePixels
    rw [hie]
    rfl
  have hlbpU : lbpUniformPatterns p = 0 := by
    unfold lbpUniformPatterns
    rw [hie]
    rfl
  have hlbpT : lbpTotalPatterns p = 0 := by
    unfold lbpTotalPatterns
    rw [hie]
    rfl
  have hlbpu : lbpUniformity p = 0 := by
    unfold lbpUniformity
    rw [hlbpT]
    norm_num
  have hhogBin : ∀ b : ℕ, hogBin p b = 0 := by
    intro b
    unfold hogBin
    rw [hie]
    rfl
  have hhogMax : hogMaxBin p = 0 := by
    unfold hogMaxBin
    rw [Finset.sup'_congr _ rfl fun b _ => hhogBin b]
    exact Finset.sup'_const _ 0
  have hhogMin : hogMinBin p = 0 := by
    unfold hogMinBin
    rw [Finset.inf'_congr _ rfl fun b _ => hhogBin b]
    exact Finset.inf'_const _ 0
  have hhogVar : hogVariance p = 0 := by
    unfold hogVariance
    rw [hhogMax, hhogMin]
    norm_num
  have hlapSq : lapSumSq p = 0 := by
    unfold lapSumSq
    rw [hie]
    rfl
  have hlapVar : lapVariance p = 0 := by
    unfold lapVariance
    rw [hie]
    norm_num
  have hhoughE : houghEdgeCount p = 0 := by
    unfold houghEdgeCount
    rw [hie]
    rfl
  have hhoughL : houghLines p = 0 := by
    unfold houghLines
    rw [hhoughE]
  refine ⟨hcanny, ?_, hlbpU, hlbpT, hlbpu, ?_, hhogVar, ?_, hlapSq, hlapVar, ?_,
    harrisCorners_zero p, harrisScore_zero p, hhoughE, hhoughL, ?_⟩
  · unfold cannyScore cannyEdgeDensity
    rw [hcanny]
    norm_num
  · unfold lbpScore
    rw [hlbpu]
    norm_num
  · unfold hogScore
    rw [hhogVar]
    norm_num
  · unfold lapScore
    rw [hlapVar]
    norm_num
  · unfold houghScore
    rw [hhoughL]
    norm_num

/-- Counterexample to C4 as stated: the valid 1x1 black image is degenerate
(width < 3), yet the colour-deviation analyzer scores it 10, not 0 — its
single sample yields `avgDelta = 0` and `score = max(0, 10 - 0) = 10`. -/
theorem degenerate_image_counterexample :
    onePixelBlack.valid ∧ onePixelBlack.width < 3 ∧
    labScore onePixelBlack = 10 := by
  refine ⟨by decide, by decide, ?_⟩
  have hstep : sampleStep onePixelBlack = 1 := by
    rw [sampleStep_eq_nat_sqrt]
    decide
  have hgrid : gridPoints 1 1 0 = [0] := by
    rw [gridPoints]
    norm_num
    rw [gridPoints]
    norm_num
  have hsamp : labSamples onePixelBlack = [(0, 0, 0)] := by
    unfold labSamples
    rw [hstep]
    simp only [onePixelBlack]
    simp only [hgrid]
    simp [byteAt]
  have havg : labAvgDelta onePixelBlack = 0 := by
    unfold labAvgDelta
    rw [hsamp]
    norm_num
  unfold labScore
  rw [havg]
  norm_num

/-- Witness for the amended C4 at the concrete valid 2x2 black buffer. -/
theorem degenerate_image_zero_witness :
    twoByTwoBlack.valid ∧ (twoByTwoBlack.width < 3 ∨ twoByTwoBlack.height < 3) ∧
    (cannyEdgePixels twoByTwoBlack = 0 ∧ cannyScore twoByTwoBlack = 0 ∧
    lbpUniformPatterns twoByTwoBlack = 0 ∧ lbpTotalPatterns twoByTwoBlack = 0 ∧
    lbpUniformity twoByTwoBlack = 0 ∧ lbpScore twoByTwoBlack = 0 ∧
    hogVariance twoByTwoBlack = 0 ∧ hogScore twoByTwoBlack = 0 ∧
    lapSumSq twoByTwoBlack = 0 ∧ lapVariance twoByTwoBlack = 0 ∧
    lapScore twoByTwoBlack = 0 ∧
    harrisCorners twoByTwoBlack = 0 ∧ harrisScore twoByTwoBlack = 0 ∧
    houghEdgeCount twoByTwoBlack = 0 ∧ houghLines twoByTwoBlack = 0 ∧
    houghScore twoByTwoBlack = 0) :=
  ⟨by decide, Or.inl (by decide),
    degenerate_image_zero twoByTwoBlack (by decide) (Or.inl (by decide))⟩

/-- C7 (amended): the comparator's sharpness metric is the absolute
statistical variance `|sumSq/count - (sum/count)^2|` of the (sign-flipped)
Laplacian response over interior pixels, which agrees with the section-4.3
mean sum-of-squares metric exactly when the summed response vanishes; the
sharpness difference of two images is the absolute difference of the
comparator's per-image metrics. -/
theorem comparator_sharpness_spec (u r : PixelBuffer)
    (hsum : calcSharpSum u.data u.width u.height = 0) :
    calcSharpness u.data u.width u.height = lapVariance u ∧
    sharpnessDifference u r =
      |calcSharpness u.data u.width u.height -
        calcSharpness r.data r.width r.height| := by
  refine ⟨?_, rfl⟩
  unfold calcSharpness
  rw [hsum]
  have hsq : calcSharpSumSq u.data u.width u.height = lapSumSq u :=
    calcSharpSumSq_eq u.data u.width u.height
  rw [hsq]
  unfold lapVariance
  rcases Nat.eq_zero_or_pos (interior u.width u.height).card with hc | hc
  · have hz : lapSumSq u = 0 := by
      unfold lapSumSq
      rw [Finset.card_eq_zero.mp hc]
      rfl
    rw [if_neg (by omega), hc, hz]
    norm_num
  · rw [if_pos hc]
    have hnn : (0 : ℚ) ≤ (lapSumSq u : ℚ) / ((interior u.width u.height).card : ℚ) := by
      have h1 : (0 : ℚ) ≤ (lapSumSq u : ℚ) := by exact_mod_cast lapSumSq_nonneg u
      positivity
    simp only [Int.cast_zero, zero_div, mul_zero, zero_mul, sub_zero]
    exact abs_of_nonneg hnn

/-- Witness for the amended C7 at the concrete valid 3x3 black buffer, whose
summed Laplacian response is 0. -/
theorem comparator_sharpness_spec_witness :
    calcSharpSum threeByThreeBlack.data threeByThreeBlack.width
      threeByThreeBlack.height = 0 ∧
    (calcSharpness threeByThreeBlack.data threeByThreeBlack.width
        threeByThreeBlack.height = lapVariance threeByThreeBlack ∧
    sharpnessDifference threeByThreeBlack threeByThreeBlack =
      |calcSharpness threeByThreeBlack.data threeByThreeBlack.width
          threeByThreeBlack.height -
        calcSharpness threeByThreeBlack.data threeByThreeBlack.width
          threeByThreeBlack.height|) :=
  ⟨calcSharpSum_black,
    comparator_sharpness_spec threeByThreeBlack threeByThreeBlack calcSharpSum_black⟩

/-- Counterexample to C7 as stated: on the 3x3 black image with a white
centre, the section-4.3 metric is `1020^2 = 1040400`, while the comparator's
metric is 0 (a single interior pixel always has zero statistical variance),
so the two sharpness metrics are not equal. -/
theorem comparator_sharpness_counterexample :
    calcSharpness threeByThreeDot.data threeByThreeDot.width
      threeByThreeDot.height = 0 ∧
    lapVariance threeByThreeDot = 1040400 ∧
    calcSharpness threeByThreeDot.data threeByThreeDot.width
      threeByThreeDot.height ≠ lapVariance threeByThreeDot := by
  have h1 : calcSharpness threeByThreeDot.data threeByThreeDot.width
      threeByThreeDot.height = 0 := calcSharpness_threeByThree dotData
  refine ⟨h1, lapVariance_dot, ?_⟩
  rw [h1, lapVariance_dot]
  norm_num

/-- C8: comparing a standardized (900x1200) buffer against a byte-identical
copy of itself gives colour-histogram correlation exactly 1 and SSIM exactly
1, and both metrics are clamped into [0, 1] on all inputs. -/
theorem self_comparison_metrics (p q : PixelBuffer) (hv : p.valid)
    (hw : p.width = 900) (hh : p.height = 1200) :
    histCorrelation p.data p.data p.width p.height = 1 ∧
    calcSSIM p.data p.data p.width p.height = 1 ∧
    0 ≤ histCorrelation p.data q.data p.width p.height ∧
    histCorrelation p.data q.data p.width p.height ≤ 1 ∧
    0 ≤ calcSSIM p.data q.data p.width p.height ∧
    calcSSIM p.data q.data p.width p.height ≤ 1 := by
  refine ⟨histCorrelation_self p hv hw hh,
    calcSSIM_self p.data p.width p.height, ?_, ?_, ?_, ?_⟩
  · unfold histCorrelation
    exact (clamp01_bounds _).1
  · unfold histCorrelation
    exact (clamp01_bounds _).2
  · unfold calcSSIM
    exact (clamp01_bounds _).1
  · unfold calcSSIM
    exact (clamp01_bounds _).2

/-- Witness for C8 at the concrete standardized black buffer. -/
theorem self_comparison_metrics_witness :
    (stdBlack.valid ∧ stdBlack.width = 900 ∧ stdBlack.height = 1200) ∧
    (histCorrelation stdBlack.data stdBlack.data stdBlack.width stdBlack.height = 1 ∧
    calcSSIM stdBlack.data stdBlack.data stdBlack.width stdBlack.height = 1 ∧
    0 ≤ histCorrelation stdBlack.data stdBlack.data stdBlack.width stdBlack.height ∧
    histCorrelation stdBlack.data stdBlack.data stdBlack.width stdBlack.height ≤ 1 ∧
    0 ≤ calcSSIM stdBlack.data stdBlack.data stdBlack.width stdBlack.height ∧
    calcSSIM stdBlack.data stdBlack.data stdBlack.width stdBlack.height ≤ 1) :=
  ⟨⟨stdBlack_valid, rfl, rfl⟩,
    self_comparison_metrics stdBlack stdBlack stdBlack_valid rfl rfl⟩

/-- Witness for C1 at the concrete valid 1x1 black buffer. -/
theorem analyze_eight_results_witness :
    onePixelBlack.valid ∧
    ((analyze onePixelBlack).length = 8 ∧
    (analyze onePixelBlack).map (fun r => r.name) =
      ["Canny Edge Detection", "LAB Color Delta-E", "Local Binary Patterns",
       "Histogram of Gradients", "Entropy Analysis", "Laplacian Sharpness",
       "Harris Corner Detection", "Hough Line Transform"] ∧
    ∀ r ∈ analyze onePixelBlack, 0 ≤ r.score ∧ r.score ≤ 10) :=
  ⟨by decide, analyze_eight_results onePixelBlack (by decide)⟩

end TCGForensics
